import Mathlib

/-!
Verification of the pymed Records/PubmedRecord data model.

The Python source (`pymed/pymed.py`) is shallowly embedded below:

* `PubmedRecord` is a `dict` subclass mapping short field codes to either a
  string or a list of strings; it is modelled as an ordered association list.
* `Records` is a `list` subclass carrying a pending-exclusion index list
  `exclude_`; mutating methods are modelled as pure state transformers that
  also return the exception raised, if any (`Option PyError`); a method that
  raises after partially mutating the state returns the mutated state.
* Python `re` matching is modelled with a small derivative-based regular
  expression engine (`Regex`); `re.compile` of an arbitrary user pattern is a
  parameter, while the literal wrapper pattern `.*P.*` built by
  `PubmedRecord.match` is embedded concretely (`wrapLit`).
-/

/-- Python exception kinds raised by the embedded code. -/
inductive PyError where
  | typeError
  | valueError
  | runtimeError
  | indexError
deriving DecidableEq, Repr

/-- A value stored under a field code of a record: a string or a list of
strings (e.g. several authors). -/
inductive FieldValue where
  | str (s : String)
  | strs (l : List String)
deriving DecidableEq, Repr

/-- `PubmedRecord` (a `dict` subclass): an insertion-ordered mapping from
field codes to values. -/
structure PubmedRecord where
  fields : List (String × FieldValue)
deriving DecidableEq, Repr

/-- `dict.get`: first binding of a key, if any. -/
def PubmedRecord.get (r : PubmedRecord) (k : String) : Option FieldValue :=
  r.fields.lookup k

/-- Well-formedness of the association-list representation: a Python dict
never holds two bindings for the same key. -/
def PubmedRecord.WF (r : PubmedRecord) : Prop :=
  (r.fields.map Prod.fst).Nodup

instance (r : PubmedRecord) : Decidable r.WF := by
  unfold PubmedRecord.WF; infer_instance

/-- `PubmedRecord.pubmed_id`: `self.get('PMID', None)`. -/
def PubmedRecord.pubmed_id (r : PubmedRecord) : Option FieldValue :=
  r.get "PMID"

/-- Python `dict.__eq__` (inherited by `PubmedRecord`): equality of the two
mappings, i.e. each binding of one is a binding of the other. -/
def PubmedRecord.pyEq (a b : PubmedRecord) : Bool :=
  a.fields.all (fun kv => b.fields.lookup kv.1 == some kv.2) &&
    b.fields.all (fun kv => a.fields.lookup kv.1 == some kv.2)

/-- Interchangeability as set elements / dict keys in Python: the two records
land in the same hash bucket (`__hash__` hashes `pubmed_id`) and compare
equal (`dict.__eq__`). -/
def PubmedRecord.sameKey (a b : PubmedRecord) : Prop :=
  a.pubmed_id = b.pubmed_id ∧ a.pyEq b = true

instance (a b : PubmedRecord) : Decidable (a.sameKey b) := by
  unfold PubmedRecord.sameKey; infer_instance

/-- Python `', '.join`. -/
def joinComma : List String → String
  | [] => ""
  | [s] => s
  | s :: rest => s ++ ", " ++ joinComma rest

/-- The string contributed by one field value to the corpus: list values are
joined with `', '`. -/
def FieldValue.corpusVal : FieldValue → String
  | FieldValue.str s => s
  | FieldValue.strs l => joinComma l

/-- `PubmedRecord.as_corpus` with an explicit field selection; `none` models
the `'all'` sentinel, `some fs` a list of field codes. Values of selected
fields are concatenated in mapping iteration order. -/
def PubmedRecord.as_corpusFields (r : PubmedRecord) (fields : Option (List String)) : String :=
  String.join (r.fields.filterMap (fun kv =>
    if (match fields with
        | Option.none => true
        | some fs => fs.contains kv.1) then
      some kv.2.corpusVal
    else Option.none))

/-- `PubmedRecord.as_corpus()` with the default fields `('TI', 'AU', 'AB')`. -/
def PubmedRecord.as_corpus (r : PubmedRecord) : String :=
  r.as_corpusFields (some ["TI", "AU", "AB"])

/-- Python whitespace stripped by `str.strip()` (ASCII fragment). -/
def pyWS (c : Char) : Bool :=
  c == ' ' || c == '\t' || c == '\n' || c == '\r' || c == '\x0b' || c == '\x0c'

/-- `str.strip()`: drop whitespace from both ends. -/
def pyStrip (l : List Char) : List Char :=
  ((l.dropWhile pyWS).reverse.dropWhile pyWS).reverse

/-- Numeric value of an ASCII digit character. -/
def digitVal (c : Char) : Nat := c.toNat - 48

/-- Digit-sequence parser of Python `int()`: digits with single underscores
allowed between digits, accumulating into `acc`. -/
def digitsCore (acc : Nat) : List Char → Option Nat
  | [] => some acc
  | c :: cs =>
    if c.isDigit then digitsCore (10 * acc + digitVal c) cs
    else
      if c == '_' then
        match cs with
        | d :: cs' => if d.isDigit then digitsCore (10 * acc + digitVal d) cs' else Option.none
        | [] => Option.none
      else Option.none

/-- Parse a non-empty digit sequence (first character must be a digit). -/
def digitsVal : List Char → Option Nat
  | [] => Option.none
  | c :: cs => if c.isDigit then digitsCore (digitVal c) cs else Option.none

/-- Python `int(string)` (ASCII fragment): strip whitespace, optional sign,
then digits; `Option.none` models a raised `ValueError`. -/
def pyInt (l : List Char) : Option Int :=
  match pyStrip l with
  | [] => Option.none
  | c :: rest =>
    if c == '+' then (digitsVal rest).map (fun n => (n : Int))
    else
      if c == '-' then (digitsVal rest).map (fun n => -(n : Int))
      else (digitsVal (c :: rest)).map (fun n => (n : Int))

/-- A Python runtime value, as returned by `PubmedRecord.year`. -/
inductive PyObj where
  | int (n : Int)
  | str (s : String)
  | list (l : List String)
  | none
deriving DecidableEq, Repr

/-- `PubmedRecord.year`: `dp = self.get('DP'); return int(dp[:4]) if dp else dp`.
A missing `'DP'` yields `None`; a falsy value is returned as is; a truthy
string has its first four characters passed to `int()`, which raises
`ValueError` if they do not parse; a truthy list passed to `int()` raises
`TypeError`. -/
def PubmedRecord.year (r : PubmedRecord) : Except PyError PyObj :=
  match r.get "DP" with
  | Option.none => Except.ok PyObj.none
  | some (FieldValue.str s) =>
    if s.data.isEmpty then Except.ok (PyObj.str s)
    else
      match pyInt (s.data.take 4) with
      | some n => Except.ok (PyObj.int n)
      | Option.none => Except.error PyError.valueError
  | some (FieldValue.strs l) =>
    if l.isEmpty then Except.ok (PyObj.list l)
    else Except.error PyError.typeError

instance {α β : Type} [DecidableEq α] [DecidableEq β] : DecidableEq (Except α β)
  | Except.error x, Except.error y =>
    if h : x = y then isTrue (by rw [h]) else isFalse (fun he => h (Except.error.inj he))
  | Except.error _, Except.ok _ => isFalse (fun he => Except.noConfusion he)
  | Except.ok _, Except.error _ => isFalse (fun he => Except.noConfusion he)
  | Except.ok x, Except.ok y =>
    if h : x = y then isTrue (by rw [h]) else isFalse (fun he => h (Except.ok.inj he))

/-- A Python value handed to a `Records` mutator: a `PubmedRecord` or some
non-record object. -/
inductive PyVal where
  | record (r : PubmedRecord)
  | str (s : String)
  | intVal (n : Int)
  | noneVal
deriving DecidableEq, Repr

/-- Whether a `PyVal` is an instance of `PubmedRecord`. -/
def PyVal.isRec : PyVal → Bool
  | PyVal.record _ => true
  | _ => false

/-- `Records`: a list of records plus the pending-exclusion index list
`exclude_`. -/
structure Records where
  recs : List PubmedRecord
  exclude_ : List Int
deriving DecidableEq, Repr

/-- Python `list.insert` index normalisation: negative indices count from the
end, out-of-range indices are clamped. -/
def listInsert (l : List α) (i : Int) (x : α) : List α :=
  let n : Int := l.length
  let j : Int := if i < 0 then i + n else i
  let k : Nat := (max 0 (min j n)).toNat
  l.take k ++ x :: l.drop k

/-- `Records.insert`: raises `RuntimeError` while `exclude_` is non-empty,
otherwise delegates to `list.insert`. -/
def Records.insert (rs : Records) (index : Int) (record : PubmedRecord) :
    Records × Option PyError :=
  if rs.exclude_.isEmpty then
    (⟨listInsert rs.recs index record, rs.exclude_⟩, Option.none)
  else (rs, some PyError.runtimeError)

/-- `Records.append`: `TypeError` unless the argument is a `PubmedRecord`,
otherwise `self.insert(len(self), value)`. -/
def Records.append (rs : Records) (v : PyVal) : Records × Option PyError :=
  match v with
  | PyVal.record r => rs.insert rs.recs.length r
  | _ => (rs, some PyError.typeError)

/-- `Records.extend`: for each element, raise `ValueError` if it is not a
`PubmedRecord`, else `append` it; the state reached before a raise is kept. -/
def Records.extend (rs : Records) (vs : List PyVal) : Records × Option PyError :=
  match vs with
  | [] => (rs, Option.none)
  | v :: rest =>
    match v with
    | PyVal.record r =>
      match rs.append (PyVal.record r) with
      | (rs', Option.none) => rs'.extend rest
      | (rs', some e) => (rs', some e)
    | _ => (rs, some PyError.valueError)

/-- `Records.__init__`: start with empty `exclude_` and `extend` by the given
records when the argument is truthy. -/
def Records.init (records : List PyVal) : Records × Option PyError :=
  if records.isEmpty then (⟨[], []⟩, Option.none)
  else Records.extend ⟨[], []⟩ records

/-- `Records.pop`: first unmark the raw index value if it is marked, then
`list.pop` (negative indices count from the end; out of range raises
`IndexError` with the unmarking already done). -/
def Records.pop (rs : Records) (index : Int) :
    Option PubmedRecord × Records × Option PyError :=
  let ex' : List Int :=
    if index ∈ rs.exclude_ then rs.exclude_.erase index else rs.exclude_
  let n : Nat := rs.recs.length
  let i : Int := if index < 0 then index + n else index
  if 0 ≤ i ∧ i < (n : Int) then
    (rs.recs[i.toNat]?, ⟨rs.recs.eraseIdx i.toNat, ex'⟩, Option.none)
  else (Option.none, ⟨rs.recs, ex'⟩, some PyError.indexError)

/-- Python `list.remove` scan: delete the first element satisfying `p`. -/
def removeFirst (p : α → Bool) : List α → List α
  | [] => []
  | x :: xs => if p x then xs else x :: removeFirst p xs

/-- The loop hidden in `Records.drop`'s list comprehension
`[self.remove(r) for ii, r in enumerate(self) if ii in self.exclude_]`:
a cursor `ii` walks the list *while it is being mutated*; `remove` deletes
the first element `dict`-equal to the element currently under the cursor.
`fuel` bounds the iteration count (the cursor advances every step and the
list never grows, so the initial length is enough fuel). -/
def dropLoop (ex : List Int) : Nat → Nat → List PubmedRecord → List PubmedRecord
  | 0, _, l => l
  | fuel + 1, ii, l =>
    if h : ii < l.length then
      if (ii : Int) ∈ ex then
        dropLoop ex fuel (ii + 1)
          (removeFirst (fun x => PubmedRecord.pyEq x (l.get ⟨ii, h⟩)) l)
      else dropLoop ex fuel (ii + 1) l
    else l

/-- `Records.drop`: run the comprehension loop, then clear `exclude_`. -/
def Records.drop (rs : Records) : Records :=
  ⟨dropLoop rs.exclude_ rs.recs.length 0 rs.recs, []⟩

/-- The loop of `write_records`'s comprehension
`[r for i, r in enumerate(records) if i not in records.exclude_]`,
mapping each kept record to its serialised field mapping. -/
def writeAux (ex : List Int) : Nat → List PubmedRecord → List (List (String × FieldValue))
  | _, [] => []
  | i, r :: rest =>
    if (i : Int) ∈ ex then writeAux ex (i + 1) rest
    else r.fields :: writeAux ex (i + 1) rest

/-- `write_records`: dump to the JSON file the records whose indices are not
marked for exclusion; the file is modelled as the JSON array of serialised
field mappings. -/
def write_records (rs : Records) : List (List (String × FieldValue)) :=
  writeAux rs.exclude_ 0 rs.recs

/-- `read_records`: `json.load(..., object_hook=PubmedRecord)` turns every
JSON object into a `PubmedRecord` (the constructor copies the mapping in
order), and the resulting list is passed to `Records(...)`. -/
def read_records (file : List (List (String × FieldValue))) : Records × Option PyError :=
  Records.init (file.map (fun m => PyVal.record ⟨m⟩))

/-- An operand of `Records.__add__`. -/
inductive Operand where
  | records (rs : Records)
  | pyList (l : List PyVal)
  | str (s : String)
deriving DecidableEq, Repr

/-- Whether an operand is an instance of `Records`. -/
def Operand.isRecords : Operand → Bool
  | Operand.records _ => true
  | _ => false

/-- `Records.__add__`: `TypeError` unless the operand is a `Records`,
otherwise a fresh `Records` built from the concatenated element lists. -/
def Records.hAdd (rs : Records) (other : Operand) : Option Records × Option PyError :=
  match other with
  | Operand.records o =>
    match Records.init ((rs.recs ++ o.recs).map PyVal.record) with
    | (r, e) => (some r, e)
  | _ => (Option.none, some PyError.typeError)

/-- Validity of the pending-exclusion set for the current length: every
marked index denotes an existing position. -/
def Records.excludeValid (rs : Records) : Prop :=
  ∀ j ∈ rs.exclude_, 0 ≤ j ∧ j < (rs.recs.length : Int)

instance (rs : Records) : Decidable rs.excludeValid := by
  unfold Records.excludeValid; infer_instance

/-- Regular expressions over characters, covering the constructs of the
patterns that `PubmedRecord.match` builds itself: `fail` is the empty
language, `dot` is `.` (any character except a newline), `lit` a literal
character; `seq`, `alt`, `star` are the usual regex combinators. -/
inductive Regex where
  | fail
  | eps
  | dot
  | lit (c : Char)
  | seq (a b : Regex)
  | alt (a b : Regex)
  | star (a : Regex)
deriving DecidableEq, Repr

/-- Whether a regex accepts the empty word. -/
def Regex.nullable : Regex → Bool
  | Regex.fail => false
  | Regex.eps => true
  | Regex.dot => false
  | Regex.lit _ => false
  | Regex.seq a b => a.nullable && b.nullable
  | Regex.alt a b => a.nullable || b.nullable
  | Regex.star _ => true

/-- Brzozowski derivative of a regex by one character. -/
def Regex.deriv : Regex → Char → Regex
  | Regex.fail, _ => Regex.fail
  | Regex.eps, _ => Regex.fail
  | Regex.dot, c => if c = '\n' then Regex.fail else Regex.eps
  | Regex.lit a, c => if c = a then Regex.eps else Regex.fail
  | Regex.seq a b, c =>
    if a.nullable then Regex.alt (Regex.seq (a.deriv c) b) (b.deriv c)
    else Regex.seq (a.deriv c) b
  | Regex.alt a b, c => Regex.alt (a.deriv c) (b.deriv c)
  | Regex.star a, c => Regex.seq (a.deriv c) (Regex.star a)

/-- Python `re`'s `pattern.match(s)` truth value: does the regex accept some
prefix of `s` (matching is anchored at position 0 only)? -/
def Regex.matchesPrefix : Regex → List Char → Bool
  | r, [] => r.nullable
  | r, c :: cs => r.nullable || (r.deriv c).matchesPrefix cs

/-- The language of a regex, as an inductive acceptance relation. -/
inductive Regex.Accepts : Regex → List Char → Prop where
  | eps : Regex.Accepts Regex.eps []
  | dot {c : Char} : c ≠ '\n' → Regex.Accepts Regex.dot [c]
  | lit {c : Char} : Regex.Accepts (Regex.lit c) [c]
  | seq {a b : Regex} {s t : List Char} :
      Regex.Accepts a s → Regex.Accepts b t → Regex.Accepts (Regex.seq a b) (s ++ t)
  | altL {a b : Regex} {s : List Char} :
      Regex.Accepts a s → Regex.Accepts (Regex.alt a b) s
  | altR {a b : Regex} {s : List Char} :
      Regex.Accepts b s → Regex.Accepts (Regex.alt a b) s
  | starNil {a : Regex} : Regex.Accepts (Regex.star a) []
  | starCons {a : Regex} {s t : List Char} :
      Regex.Accepts a s → Regex.Accepts (Regex.star a) t →
      Regex.Accepts (Regex.star a) (s ++ t)

/-- The regex matching a fixed character sequence literally. -/
def litSeq (l : List Char) : Regex :=
  l.foldr (fun c r => Regex.seq (Regex.lit c) r) Regex.eps

/-- The compiled form of the wrapper pattern `'.*%s.*' % p` that
`PubmedRecord.match` builds when `p` passes its substring test (all the
characters of such a `p` are regex-literal). -/
def wrapLit (p : String) : Regex :=
  Regex.seq (Regex.star Regex.dot) (Regex.seq (litSeq p.data) (Regex.star Regex.dot))

/-- The separator-stripping of `is_substring`: `replace` of a single-character
pattern by the empty string deletes every occurrence of that character. -/
def stripSeps (s : String) : List Char :=
  s.data.filter (fun c => !(c == '-') && !(c == '_') && !(c == ' '))

/-- Python `str.isalnum` (ASCII fragment): non-empty and every character
alphanumeric. -/
def pyIsAlnum (l : List Char) : Bool :=
  !l.isEmpty && l.all Char.isAlphanum

/-- The `is_substring` helper inside `PubmedRecord.match`: after deleting
`'-'`, `'_'` and `' '`, the remainder must be non-empty alphanumeric. -/
def is_substring (s : String) : Bool :=
  pyIsAlnum (stripSeps s)

/-- `PubmedRecord.match`: wrap substring-like patterns as `'.*%s.*'`,
otherwise compile the pattern itself (`compile` models `re.compile` on
arbitrary patterns), then run the anchored `.match` against `as_corpus()`. -/
def PubmedRecord.pymatch (compile : String → Regex) (r : PubmedRecord)
    (regexp : String) : Bool :=
  let r_ : Regex := if is_substring regexp then wrapLit regexp else compile regexp
  r_.matchesPrefix (r.as_corpus).data

/-- `Records.find`: a fresh `Records` built from the elements whose corpus
matches the pattern. -/
def Records.find (compile : String → Regex) (rs : Records) (regexp : String) :
    Records × Option PyError :=
  Records.init ((rs.recs.filter (fun r => r.pymatch compile regexp)).map PyVal.record)

/-- Python slicing `l[i:j]` (step 1): negative indices count from the end and
the bounds are clamped to the list. -/
def pySlice (l : List α) (i j : Int) : List α :=
  let n : Int := l.length
  let lo : Int := max 0 (min (if i < 0 then i + n else i) n)
  let hi : Int := max 0 (min (if j < 0 then j + n else j) n)
  (l.take hi.toNat).drop lo.toNat

/-- `Records.__getslice__`: a fresh `Records` built from the slice. -/
def Records.getslice (rs : Records) (i j : Int) : Records × Option PyError :=
  Records.init ((pySlice rs.recs i j).map PyVal.record)

/-- Occurrence of `p` as a contiguous substring anywhere in `s` (the reading
of "matches anywhere" used by the specification). -/
def occursAnywhere (p s : List Char) : Bool :=
  (List.range (s.length + 1)).any (fun i => p.isPrefixOf (s.drop i))

/-- Concrete records used by concrete instantiations below. -/
def recA : PubmedRecord := ⟨[("PMID", FieldValue.str "1")]⟩

/-- Concrete record, distinct from `recA`. -/
def recB : PubmedRecord := ⟨[("PMID", FieldValue.str "2")]⟩

/-- Concrete record, distinct from `recA` and `recB`. -/
def recC : PubmedRecord := ⟨[("PMID", FieldValue.str "3")]⟩

theorem lookup_mem {α β : Type} [BEq α] [LawfulBEq α] {l : List (α × β)} {k : α}
    {v : β} (h : List.lookup k l = some v) : (k, v) ∈ l := by
  induction l with
  | nil => simp [List.lookup] at h
  | cons p rest ih =>
    obtain ⟨k', v'⟩ := p
    rw [List.lookup] at h
    cases hkk : (k == k') with
    | true =>
      rw [hkk] at h
      obtain rfl := Option.some.inj h
      obtain rfl : k = k' := eq_of_beq hkk
      exact List.mem_cons_self _ _
    | false =>
      rw [hkk] at h
      exact List.mem_cons_of_mem _ (ih h)

theorem lookup_of_mem_nodup {α β : Type} [BEq α] [LawfulBEq α] {l : List (α × β)}
    {k : α} {v : β} (hn : (l.map Prod.fst).Nodup) (hm : (k, v) ∈ l) :
    List.lookup k l = some v := by
  induction l with
  | nil => simp at hm
  | cons p rest ih =>
    obtain ⟨k', v'⟩ := p
    rw [List.map_cons, List.nodup_cons] at hn
    rw [List.mem_cons] at hm
    rcases hm with hm | hm
    · rw [Prod.mk.injEq] at hm
      obtain ⟨rfl, rfl⟩ := hm
      rw [List.lookup]
      simp
    · have hkk : (k == k') = false := by
        rw [beq_eq_false_iff_ne]
        intro he
        subst he
        exact hn.1 (List.mem_map.mpr ⟨(k, v), hm, rfl⟩)
      rw [List.lookup, hkk]
      exact ih hn.2 hm

/-- Mapping-level agreement implied by Python dict equality (no
well-formedness needed in this direction). -/
theorem pyEq_get_eq {a b : PubmedRecord} (h : a.pyEq b = true) (k : String) :
    a.get k = b.get k := by
  unfold PubmedRecord.pyEq at h
  rw [Bool.and_eq_true, List.all_eq_true, List.all_eq_true] at h
  obtain ⟨h1, h2⟩ := h
  unfold PubmedRecord.get
  cases hla : List.lookup k a.fields with
  | some v =>
    have hm := lookup_mem hla
    have hb := h1 _ hm
    rw [beq_iff_eq] at hb
    exact hb.symm
  | none =>
    cases hlb : List.lookup k b.fields with
    | some w =>
      have hmb := lookup_mem hlb
      have ha := h2 _ hmb
      rw [beq_iff_eq] at ha
      rw [hla] at ha
      cases ha
    | none => rfl

/-- Mapping-level agreement implies Python dict equality for well-formed
(duplicate-free) representations. -/
theorem get_eq_pyEq {a b : PubmedRecord} (ha : a.WF) (hb : b.WF)
    (h : ∀ k, a.get k = b.get k) : a.pyEq b = true := by
  unfold PubmedRecord.pyEq
  rw [Bool.and_eq_true, List.all_eq_true, List.all_eq_true]
  constructor
  · rintro ⟨k, v⟩ hm
    have : List.lookup k a.fields = some v := lookup_of_mem_nodup ha hm
    rw [beq_iff_eq]
    have hk := h k
    unfold PubmedRecord.get at hk
    rw [this] at hk
    exact hk.symm
  · rintro ⟨k, v⟩ hm
    have : List.lookup k b.fields = some v := lookup_of_mem_nodup hb hm
    rw [beq_iff_eq]
    have hk := h k
    unfold PubmedRecord.get at hk
    rw [this] at hk
    exact hk

theorem listInsert_at_length {α : Type} (l : List α) (x : α) :
    listInsert l (l.length : Int) x = l ++ [x] := by
  simp only [listInsert]
  have h0 : ¬((l.length : Int) < 0) := by
    rw [not_lt]
    exact Int.natCast_nonneg _
  rw [if_neg h0, min_self, max_eq_right (Int.natCast_nonneg _), Int.toNat_natCast,
    List.take_length, List.drop_length]

theorem extend_map_record (ws : List PubmedRecord) :
    ∀ (recs : List PubmedRecord) (tail : List PyVal),
      Records.extend ⟨recs, []⟩ (ws.map PyVal.record ++ tail) =
        Records.extend ⟨recs ++ ws, []⟩ tail := by
  induction ws with
  | nil => intro recs tail; simp
  | cons r rest ih =>
    intro recs tail
    have happ : Records.append ⟨recs, []⟩ (PyVal.record r) =
        (⟨recs ++ [r], []⟩, Option.none) := by
      simp [Records.append, Records.insert, listInsert_at_length]
    rw [List.map_cons, List.cons_append, Records.extend, happ]
    show Records.extend ⟨recs ++ [r], []⟩ (List.map PyVal.record rest ++ tail) =
      Records.extend ⟨recs ++ r :: rest, []⟩ tail
    rw [ih (recs ++ [r]) tail]
    simp

theorem extend_nil (rs : Records) : rs.extend [] = (rs, Option.none) := rfl

theorem init_map_record (l : List PubmedRecord) :
    Records.init (l.map PyVal.record) = (⟨l, []⟩, Option.none) := by
  cases l with
  | nil => simp [Records.init]
  | cons r rest =>
    rw [Records.init, if_neg (by simp)]
    have h := extend_map_record (r :: rest) [] []
    rw [List.append_nil] at h
    rw [h, extend_nil]
    simp

theorem writeAux_ex_nil (l : List PubmedRecord) :
    ∀ i, writeAux [] i l = l.map PubmedRecord.fields := by
  induction l with
  | nil => intro i; rfl
  | cons r rest ih =>
    intro i
    rw [writeAux, if_neg (List.not_mem_nil _), ih, List.map_cons]

theorem writeAux_eq (ex : List Int) (l : List PubmedRecord) :
    ∀ i, writeAux ex i l = (List.range l.length).filterMap
      (fun j => if ((i + j : Nat) : Int) ∈ ex then Option.none
                else (l[j]?).map PubmedRecord.fields) := by
  induction l with
  | nil => intro i; rfl
  | cons r rest ih =>
    intro i
    rw [writeAux, List.length_cons, List.range_succ_eq_map, List.filterMap_cons,
      List.filterMap_map]
    have harg : ∀ j : Nat,
        ((fun j => if ((i + j : Nat) : Int) ∈ ex then Option.none
                   else ((r :: rest)[j]?).map PubmedRecord.fields) ∘ Nat.succ) j =
        (fun j => if ((i + 1 + j : Nat) : Int) ∈ ex then Option.none
                  else (rest[j]?).map PubmedRecord.fields) j := by
      intro j
      have : i + (j + 1) = i + 1 + j := by omega
      simp [Function.comp, Nat.succ_eq_add_one, this]
    rw [funext harg, ← ih (i + 1)]
    by_cases hm : (i : Int) ∈ ex
    · rw [if_pos hm]
      have : ((i + 0 : Nat) : Int) ∈ ex := by simpa using hm
      rw [if_pos this]
    · rw [if_neg hm]
      have : ¬((i + 0 : Nat) : Int) ∈ ex := by simpa using hm
      rw [if_neg this]
      simp only [List.getElem?_cons_zero, Option.map_some']

/-- Folding digits most-significant first, the numeric value of a digit
string. -/
def digitsFold (l : List Char) : Nat :=
  l.foldl (fun a c => 10 * a + digitVal c) 0

theorem isDigit_not_ws {c : Char} (h : c.isDigit = true) : pyWS c = false := by
  cases hw : pyWS c with
  | false => rfl
  | true =>
    exfalso
    unfold pyWS at hw
    simp only [Bool.or_eq_true, beq_iff_eq] at hw
    rcases hw with ((((rfl | rfl) | rfl) | rfl) | rfl) | rfl <;> exact absurd h (by decide)

theorem isDigit_not_special {c : Char} (h : c.isDigit = true) :
    (c == '+') = false ∧ (c == '-') = false ∧ (c == '_') = false := by
  refine ⟨?_, ?_, ?_⟩
  · cases he : c == '+' with
    | false => rfl
    | true =>
      obtain rfl := eq_of_beq he
      exact absurd h (by decide)
  · cases he : c == '-' with
    | false => rfl
    | true =>
      obtain rfl := eq_of_beq he
      exact absurd h (by decide)
  · cases he : c == '_' with
    | false => rfl
    | true =>
      obtain rfl := eq_of_beq he
      exact absurd h (by decide)

theorem dropWhile_of_all {α : Type} {p : α → Bool} {l : List α}
    (h : ∀ c ∈ l, p c = false) : l.dropWhile p = l := by
  cases l with
  | nil => rfl
  | cons x xs =>
    rw [List.dropWhile_cons, h x (List.mem_cons_self _ _)]
    simp

theorem pyStrip_of_digits {l : List Char} (h : l.all Char.isDigit = true) :
    pyStrip l = l := by
  rw [List.all_eq_true] at h
  unfold pyStrip
  rw [dropWhile_of_all (fun c hc => isDigit_not_ws (h c hc)),
    dropWhile_of_all (fun c hc => isDigit_not_ws (h c (List.mem_reverse.mp hc))),
    List.reverse_reverse]

theorem digitsCore_of_digits :
    ∀ (l : List Char) (acc : Nat), l.all Char.isDigit = true →
      digitsCore acc l = some (l.foldl (fun a c => 10 * a + digitVal c) acc) := by
  intro l
  induction l with
  | nil => intro acc _; rfl
  | cons c cs ih =>
    intro acc h
    rw [List.all_cons, Bool.and_eq_true] at h
    rw [digitsCore.eq_def]
    simp only [h.1, if_true]
    rw [ih _ h.2, List.foldl_cons]

theorem digitsVal_of_digits {l : List Char} (hne : l ≠ [])
    (h : l.all Char.isDigit = true) : digitsVal l = some (digitsFold l) := by
  cases l with
  | nil => exact absurd rfl hne
  | cons c cs =>
    rw [List.all_cons, Bool.and_eq_true] at h
    rw [digitsVal, if_pos h.1, digitsCore_of_digits cs _ h.2]
    unfold digitsFold
    rw [List.foldl_cons]
    norm_num

theorem pyInt_of_digits {l : List Char} (hne : l ≠ [])
    (h : l.all Char.isDigit = true) : pyInt l = some ((digitsFold l : Nat) : Int) := by
  cases l with
  | nil => exact absurd rfl hne
  | cons c cs =>
    have hc : c.isDigit = true := by
      rw [List.all_cons, Bool.and_eq_true] at h
      exact h.1
    obtain ⟨h1, h2, _⟩ := isDigit_not_special hc
    unfold pyInt
    rw [pyStrip_of_digits h]
    show (if c == '+' then (digitsVal cs).map (fun n => (n : Int))
          else
            if c == '-' then (digitsVal cs).map (fun n => -(n : Int))
            else (digitsVal (c :: cs)).map (fun n => (n : Int))) = _
    rw [h1, h2]
    simp only [Bool.false_eq_true, if_false]
    rw [digitsVal_of_digits hne h]
    rfl

theorem nullable_sound : ∀ {r : Regex}, r.nullable = true → r.Accepts [] := by
  intro r
  induction r with
  | fail => intro h; simp [Regex.nullable] at h
  | eps => intro _; exact Regex.Accepts.eps
  | dot => intro h; simp [Regex.nullable] at h
  | lit c => intro h; simp [Regex.nullable] at h
  | seq a b iha ihb =>
    intro h
    rw [Regex.nullable, Bool.and_eq_true] at h
    exact Regex.Accepts.seq (iha h.1) (ihb h.2)
  | alt a b iha ihb =>
    intro h
    rw [Regex.nullable, Bool.or_eq_true] at h
    rcases h with h | h
    · exact Regex.Accepts.altL (iha h)
    · exact Regex.Accepts.altR (ihb h)
  | star a _ => intro _; exact Regex.Accepts.starNil

theorem nullable_complete : ∀ {r : Regex}, r.Accepts [] → r.nullable = true := by
  suffices haux : ∀ (r : Regex) (w : List Char), r.Accepts w → w = [] → r.nullable = true by
    intro r hr
    exact haux r [] hr rfl
  intro r w h
  induction h with
  | eps => intro _; rfl
  | dot _ => intro hw; simp at hw
  | lit => intro hw; simp at hw
  | seq hs ht ihs iht =>
    intro hw
    rw [List.append_eq_nil] at hw
    rw [Regex.nullable, Bool.and_eq_true]
    exact ⟨ihs hw.1, iht hw.2⟩
  | altL hs ih =>
    intro hw
    rw [Regex.nullable, Bool.or_eq_true]
    exact Or.inl (ih hw)
  | altR hs ih =>
    intro hw
    rw [Regex.nullable, Bool.or_eq_true]
    exact Or.inr (ih hw)
  | starNil => intro _; rfl
  | starCons hs ht ihs iht => intro _; rfl

theorem deriv_sound (c : Char) :
    ∀ (r : Regex) {s : List Char}, (r.deriv c).Accepts s → r.Accepts (c :: s) := by
  intro r
  induction r with
  | fail => intro s h; cases h
  | eps => intro s h; cases h
  | dot =>
    intro s h
    rw [Regex.deriv] at h
    by_cases hc : c = '\n'
    · rw [if_pos hc] at h; cases h
    · rw [if_neg hc] at h
      cases h
      exact Regex.Accepts.dot hc
  | lit a =>
    intro s h
    rw [Regex.deriv] at h
    by_cases hc : c = a
    · rw [if_pos hc] at h
      cases h
      rw [hc]
      exact Regex.Accepts.lit
    · rw [if_neg hc] at h; cases h
  | seq a b iha ihb =>
    intro s h
    rw [Regex.deriv] at h
    by_cases hn : a.nullable = true
    · rw [if_pos hn] at h
      cases h with
      | altL h1 =>
        cases h1 with
        | seq hs ht =>
          rw [← List.cons_append]
          exact Regex.Accepts.seq (iha hs) ht
      | altR h2 =>
        have := Regex.Accepts.seq (nullable_sound hn) (ihb h2)
        simpa using this
    · rw [if_neg hn] at h
      cases h with
      | seq hs ht =>
        rw [← List.cons_append]
        exact Regex.Accepts.seq (iha hs) ht
  | alt a b iha ihb =>
    intro s h
    rw [Regex.deriv] at h
    cases h with
    | altL h1 => exact Regex.Accepts.altL (iha h1)
    | altR h2 => exact Regex.Accepts.altR (ihb h2)
  | star a iha =>
    intro s h
    rw [Regex.deriv] at h
    cases h with
    | seq hs ht =>
      rw [← List.cons_append]
      exact Regex.Accepts.starCons (iha hs) ht

theorem deriv_complete :
    ∀ {r : Regex} {w : List Char}, r.Accepts w →
      ∀ (c : Char) (s : List Char), w = c :: s → (r.deriv c).Accepts s := by
  intro r w h
  induction h with
  | eps => intro c s hw; simp at hw
  | dot hne =>
    intro c s hw
    rw [List.cons.injEq] at hw
    obtain ⟨rfl, rfl⟩ := hw
    rw [Regex.deriv, if_neg hne]
    exact Regex.Accepts.eps
  | lit =>
    intro c s hw
    rw [List.cons.injEq] at hw
    obtain ⟨rfl, rfl⟩ := hw
    rw [Regex.deriv, if_pos rfl]
    exact Regex.Accepts.eps
  | @seq a b u v hs ht ihs iht =>
    intro c s hw
    cases u with
    | nil =>
      rw [List.nil_append] at hw
      subst hw
      have hn : a.nullable = true := nullable_complete hs
      rw [Regex.deriv, if_pos hn]
      exact Regex.Accepts.altR (iht c s rfl)
    | cons x u' =>
      rw [List.cons_append, List.cons.injEq] at hw
      obtain ⟨rfl, rfl⟩ := hw
      have hd := ihs _ u' rfl
      rw [Regex.deriv]
      by_cases hn : a.nullable = true
      · rw [if_pos hn]
        exact Regex.Accepts.altL (Regex.Accepts.seq hd ht)
      · rw [if_neg hn]
        exact Regex.Accepts.seq hd ht
  | altL hs ih =>
    intro c s hw
    rw [Regex.deriv]
    exact Regex.Accepts.altL (ih c s hw)
  | altR hs ih =>
    intro c s hw
    rw [Regex.deriv]
    exact Regex.Accepts.altR (ih c s hw)
  | starNil => intro c s hw; simp at hw
  | @starCons a u v hs ht ihs iht =>
    intro c s hw
    cases u with
    | nil =>
      rw [List.nil_append] at hw
      subst hw
      exact iht c s rfl
    | cons x u' =>
      rw [List.cons_append, List.cons.injEq] at hw
      obtain ⟨rfl, rfl⟩ := hw
      rw [Regex.deriv]
      exact Regex.Accepts.seq (ihs _ u' rfl) ht

theorem matchesPrefix_iff :
    ∀ (s : List Char) (r : Regex),
      r.matchesPrefix s = true ↔ ∃ p, p <+: s ∧ r.Accepts p := by
  intro s
  induction s with
  | nil =>
    intro r
    rw [Regex.matchesPrefix]
    constructor
    · intro h
      exact ⟨[], List.prefix_refl _, nullable_sound h⟩
    · rintro ⟨p, hp, hacc⟩
      rw [List.prefix_nil] at hp
      subst hp
      exact nullable_complete hacc
  | cons c cs ih =>
    intro r
    rw [Regex.matchesPrefix, Bool.or_eq_true]
    constructor
    · rintro (h | h)
      · exact ⟨[], ⟨c :: cs, rfl⟩, nullable_sound h⟩
      · obtain ⟨p, hp, hacc⟩ := (ih (r.deriv c)).mp h
        exact ⟨c :: p, List.cons_prefix_cons.mpr ⟨rfl, hp⟩, deriv_sound c r hacc⟩
    · rintro ⟨p, hp, hacc⟩
      cases p with
      | nil => exact Or.inl (nullable_complete hacc)
      | cons x p' =>
        rw [List.cons_prefix_cons] at hp
        obtain ⟨rfl, hp'⟩ := hp
        exact Or.inr ((ih _).mpr ⟨p', hp', deriv_complete hacc _ p' rfl⟩)

theorem litSeq_accepts : ∀ (l s : List Char), (litSeq l).Accepts s ↔ s = l := by
  intro l
  induction l with
  | nil =>
    intro s
    constructor
    · intro h; cases h; rfl
    · intro h; subst h; exact Regex.Accepts.eps
  | cons c cs ih =>
    intro s
    constructor
    · intro h
      cases h with
      | seq hs ht =>
        cases hs
        rw [(ih _).mp ht]
        rfl
    · intro h
      subst h
      have := Regex.Accepts.seq (Regex.Accepts.lit (c := c)) ((ih cs).mpr rfl)
      simpa using this

theorem starDot_accepts_all :
    ∀ {w : List Char}, (Regex.star Regex.dot).Accepts w → ∀ c ∈ w, ¬c = '\n' := by
  suffices haux : ∀ (r : Regex) (w : List Char), r.Accepts w →
      r = Regex.star Regex.dot → ∀ c ∈ w, ¬c = '\n' by
    intro w h
    exact haux _ w h rfl
  intro r w h
  induction h with
  | eps => intro he; simp at he
  | dot _ => intro he; simp at he
  | lit => intro he; simp at he
  | seq _ _ _ _ => intro he; simp at he
  | altL _ _ => intro he; simp at he
  | altR _ _ => intro he; simp at he
  | starNil => intro _ c hc; simp at hc
  | @starCons a u v hs ht ihs iht =>
    intro he c hc
    obtain rfl : a = Regex.dot := by
      rw [Regex.star.injEq] at he
      exact he
    rcases List.mem_append.mp hc with hcu | hcv
    · cases hs with
      | dot hne =>
        rw [List.mem_singleton] at hcu
        subst hcu
        exact hne
    · exact iht rfl c hcv

theorem starDot_of_all :
    ∀ (w : List Char), (∀ c ∈ w, ¬c = '\n') → (Regex.star Regex.dot).Accepts w := by
  intro w
  induction w with
  | nil => intro _; exact Regex.Accepts.starNil
  | cons c cs ih =>
    intro h
    have hc := h c (List.mem_cons_self _ _)
    have hcs := ih (fun x hx => h x (List.mem_cons_of_mem _ hx))
    have := Regex.Accepts.starCons (Regex.Accepts.dot hc) hcs
    simpa using this

theorem wrapLit_matches (p : String) (s : List Char) :
    (wrapLit p).matchesPrefix s = true ↔
      ∃ i, ((s.take i).all (fun c => !(c == '\n'))) = true ∧ p.data <+: s.drop i := by
  rw [matchesPrefix_iff]
  constructor
  · rintro ⟨pre, hpre, hacc⟩
    cases hacc with
    | @seq _ _ u vrest hu hrest =>
      cases hrest with
      | @seq _ _ x y hx hy =>
        rw [litSeq_accepts] at hx
        subst hx
        obtain ⟨t, ht⟩ := hpre
        subst ht
        refine ⟨u.length, ?_, ?_⟩
        · rw [List.append_assoc, List.take_left, List.all_eq_true]
          intro c hc
          have := starDot_accepts_all hu c hc
          simpa using this
        · rw [List.append_assoc, List.drop_left]
          exact ⟨y ++ t, by rw [← List.append_assoc]⟩
  · rintro ⟨i, hall, hdrop⟩
    obtain ⟨t, ht⟩ := hdrop
    refine ⟨s.take i ++ p.data, ⟨t, ?_⟩, ?_⟩
    · rw [List.append_assoc, ht, List.take_append_drop]
    · have h1 : (Regex.star Regex.dot).Accepts (s.take i) := by
        apply starDot_of_all
        intro c hc
        rw [List.all_eq_true] at hall
        have := hall c hc
        simpa using this
      have h2 : (litSeq p.data).Accepts p.data := (litSeq_accepts _ _).mpr rfl
      have h3 : (Regex.star Regex.dot).Accepts ([] : List Char) := Regex.Accepts.starNil
      have := Regex.Accepts.seq h1 (Regex.Accepts.seq h2 h3)
      simpa using this

/-- C1: the claim says `drop` removes exactly the marked records. The code
iterates `enumerate(self)` while calling `self.remove(...)`, so with records
`recA, recB, recC` and indices `{0, 1}` marked, the cursor skips over `recB`
after the first removal and then removes the unmarked `recC`: the result is
`[recB]` (a marked record survives, an unmarked one is deleted), though
`exclude_` is indeed cleared. This theorem evaluates the embedded `drop` at
that failing input. -/
theorem claim_C1_drop_failing :
    Records.drop ⟨[recA, recB, recC], [0, 1]⟩ = ⟨[recB], []⟩ ∧
    recB ∈ (Records.drop ⟨[recA, recB, recC], [0, 1]⟩).recs ∧
    recC ∉ (Records.drop ⟨[recA, recB, recC], [0, 1]⟩).recs := by
  refine ⟨by decide, by decide, by decide⟩

/-- C2: with a non-empty pending-exclusion set, `insert` raises
`RuntimeError` for every index and record and leaves the state unchanged;
with an empty set it inserts, placing the record at the given (in-range)
position. -/
theorem claim_C2_insert_guard (rs : Records) (i : Int) (r : PubmedRecord) :
    (rs.exclude_ ≠ [] → rs.insert i r = (rs, some PyError.runtimeError)) ∧
    (rs.exclude_ = [] →
      rs.insert i r = (⟨listInsert rs.recs i r, []⟩, Option.none) ∧
      (0 ≤ i → i ≤ (rs.recs.length : Int) →
        listInsert rs.recs i r = rs.recs.take i.toNat ++ r :: rs.recs.drop i.toNat)) := by
  constructor
  · intro h
    unfold Records.insert
    rw [if_neg (by simpa [List.isEmpty_iff] using h)]
  · intro h
    constructor
    · unfold Records.insert
      rw [if_pos (by simpa [List.isEmpty_iff] using h), h]
    · intro h0 hle
      simp only [listInsert]
      rw [if_neg (not_lt.mpr h0), min_eq_left hle, max_eq_right h0]

/-- C2 witness: a concrete blocked insert and a concrete successful one. -/
theorem claim_C2_witness :
    Records.insert ⟨[recA], [0]⟩ 0 recB = (⟨[recA], [0]⟩, some PyError.runtimeError) ∧
    Records.insert ⟨[recA], []⟩ 1 recB = (⟨[recA, recB], []⟩, Option.none) := by
  constructor
  · exact (claim_C2_insert_guard ⟨[recA], [0]⟩ 0 recB).1 (by decide)
  · exact (((claim_C2_insert_guard ⟨[recA], []⟩ 1 recB).2 rfl).1).trans (by decide)

/-- C3 (amended): `pop` at a valid non-negative index returns the record at
that index, removes it, and erases that exact index value from `exclude_`;
the other marked indices are left untouched (they are neither shifted nor
pruned, so the claim's validity invariant does not hold in general). -/
theorem claim_C3_pop_amended (rs : Records) (i : Int) (h0 : 0 ≤ i)
    (hlt : i < (rs.recs.length : Int)) :
    rs.pop i = (rs.recs[i.toNat]?,
      ⟨rs.recs.eraseIdx i.toNat, rs.exclude_.erase i⟩, Option.none) := by
  simp only [Records.pop]
  rw [if_neg (not_lt.mpr h0), if_pos ⟨h0, hlt⟩]
  by_cases hm : i ∈ rs.exclude_
  · rw [if_pos hm]
  · rw [if_neg hm, List.erase_of_not_mem hm]

/-- C3 witness: popping a marked index unmarks it and leaves the rest. -/
theorem claim_C3_witness :
    Records.pop ⟨[recA, recB], [0, 1]⟩ 1 = (some recB, ⟨[recA], [0]⟩, Option.none) :=
  (claim_C3_pop_amended ⟨[recA, recB], [0, 1]⟩ 1 (by decide) (by decide)).trans (by decide)

/-- C3 counterexample: popping index 0 while index 1 is marked leaves
`exclude_ = [1]` on a collection of length 1, so the pending-exclusion set
references a position beyond the new length, contradicting the claim's
invariant. -/
theorem claim_C3_counterexample :
    Records.pop ⟨[recA, recB], [1]⟩ 0 = (some recA, ⟨[recB], [1]⟩, Option.none) ∧
    ¬(Records.pop ⟨[recA, recB], [1]⟩ 0).2.1.excludeValid := by
  refine ⟨by decide, by decide⟩

/-- C4: `write_records` keeps exactly the records at unmarked indices, in
order; and for a collection with empty pending-exclusion set, writing and
then reading reproduces the collection exactly (same field content, same
order, no error). -/
theorem claim_C4_roundtrip (rs : Records) :
    write_records rs = (List.range rs.recs.length).filterMap
      (fun (j : Nat) => if (j : Int) ∈ rs.exclude_ then Option.none
                        else (rs.recs[j]?).map PubmedRecord.fields) ∧
    (rs.exclude_ = [] → read_records (write_records rs) = (rs, Option.none)) := by
  constructor
  · have h := writeAux_eq rs.exclude_ rs.recs 0
    unfold write_records
    rw [h]
    congr 1
    funext j
    rw [Nat.zero_add]
  · intro h
    unfold write_records
    rw [h, writeAux_ex_nil]
    unfold read_records
    rw [List.map_map]
    have hcomp : ((fun m => PyVal.record ⟨m⟩) ∘ PubmedRecord.fields) = PyVal.record := by
      funext r
      rfl
    rw [hcomp, init_map_record]
    obtain ⟨recs, ex⟩ := rs
    simp only at h
    rw [h]

/-- C4 witness: a concrete two-record round trip. -/
theorem claim_C4_witness :
    read_records (write_records ⟨[recA, recB], []⟩) = (⟨[recA, recB], []⟩, Option.none) :=
  (claim_C4_roundtrip ⟨[recA, recB], []⟩).2 rfl

/-- C5 (amended): `append` with a non-record raises `TypeError` leaving the
collection unchanged, and `+` with a non-`Records` operand raises `TypeError`
producing no result; but `extend` raises `ValueError` (not `TypeError`) at
the first non-record element, and the records preceding it have already been
appended when the error is raised. -/
theorem claim_C5_type_guard_amended (rs : Records) (v : PyVal) (o : Operand)
    (ws : List PubmedRecord) (rest : List PyVal) :
    (v.isRec = false → rs.append v = (rs, some PyError.typeError)) ∧
    (o.isRecords = false → rs.hAdd o = (Option.none, some PyError.typeError)) ∧
    (rs.exclude_ = [] → v.isRec = false →
      rs.extend (ws.map PyVal.record ++ v :: rest) =
        (⟨rs.recs ++ ws, []⟩, some PyError.valueError)) := by
  refine ⟨?_, ?_, ?_⟩
  · intro h
    cases v with
    | record r => simp [PyVal.isRec] at h
    | str s => rfl
    | intVal n => rfl
    | noneVal => rfl
  · intro h
    cases o with
    | records o' => simp [Operand.isRecords] at h
    | pyList l => rfl
    | str s => rfl
  · intro hex h
    obtain ⟨recs, ex⟩ := rs
    simp only at hex
    subst hex
    rw [extend_map_record ws recs (v :: rest)]
    cases v with
    | record r => simp [PyVal.isRec] at h
    | str s => rfl
    | intVal n => rfl
    | noneVal => rfl

/-- C5 counterexample: `extend` with `[record, "foo"]` on an empty collection
raises `ValueError` (which is not `TypeError`) and has already appended the
leading record, so the collection is modified. -/
theorem claim_C5_counterexample :
    Records.extend ⟨[], []⟩ [PyVal.record recA, PyVal.str "foo"] =
      (⟨[recA], []⟩, some PyError.valueError) ∧
    PyError.valueError ≠ PyError.typeError ∧
    (⟨[recA], []⟩ : Records) ≠ ⟨[], []⟩ := by
  refine ⟨by decide, by decide, by decide⟩

/-- C5 witness: concrete failing `append`, `+` and `extend` calls. -/
theorem claim_C5_witness :
    Records.append ⟨[recA], []⟩ (PyVal.str "x") = (⟨[recA], []⟩, some PyError.typeError) ∧
    Records.hAdd ⟨[recA], []⟩ (Operand.str "x") = (Option.none, some PyError.typeError) ∧
    Records.extend ⟨[recB], []⟩ [PyVal.record recA, PyVal.noneVal] =
      (⟨[recB, recA], []⟩, some PyError.valueError) := by
  refine ⟨(claim_C5_type_guard_amended ⟨[recA], []⟩ (PyVal.str "x") (Operand.str "x") [] []).1 rfl,
    (claim_C5_type_guard_amended ⟨[recA], []⟩ (PyVal.str "x") (Operand.str "x") [] []).2.1 rfl,
    ?_⟩
  exact ((claim_C5_type_guard_amended ⟨[recB], []⟩ PyVal.noneVal (Operand.str "x")
    [recA] []).2.2 rfl rfl).trans (by decide)

/-- C6 (amended): the PMID-based hash is consistent with equality (records
that compare equal have equal `pubmed_id`), but interchangeability as set
elements or dict keys holds exactly when the two records agree as entire
mappings — an equal, present identifier alone does not make two records the
same key. -/
theorem claim_C6_key_equality_amended (a b : PubmedRecord) :
    (a.pyEq b = true → a.pubmed_id = b.pubmed_id) ∧
    (a.WF → b.WF → (a.sameKey b ↔ ∀ k, a.get k = b.get k)) := by
  constructor
  · intro h
    exact pyEq_get_eq h "PMID"
  · intro ha hb
    constructor
    · intro h k
      exact pyEq_get_eq h.2 k
    · intro h
      exact ⟨h "PMID", get_eq_pyEq ha hb h⟩

/-- C6 counterexample: two records with the same present identifier but
different titles are not interchangeable as set elements or dict keys, and
two identical identifier-less records are interchangeable although their
identifier is absent. -/
theorem claim_C6_counterexample :
    (⟨[("PMID", FieldValue.str "1"), ("TI", FieldValue.str "x")]⟩ : PubmedRecord).pubmed_id =
      (⟨[("PMID", FieldValue.str "1"), ("TI", FieldValue.str "y")]⟩ : PubmedRecord).pubmed_id ∧
    (⟨[("PMID", FieldValue.str "1"), ("TI", FieldValue.str "x")]⟩ : PubmedRecord).pubmed_id ≠
      Option.none ∧
    ¬(⟨[("PMID", FieldValue.str "1"), ("TI", FieldValue.str "x")]⟩ : PubmedRecord).sameKey
      ⟨[("PMID", FieldValue.str "1"), ("TI", FieldValue.str "y")]⟩ ∧
    (⟨[("TI", FieldValue.str "x")]⟩ : PubmedRecord).sameKey ⟨[("TI", FieldValue.str "x")]⟩ ∧
    (⟨[("TI", FieldValue.str "x")]⟩ : PubmedRecord).pubmed_id = Option.none := by
  refine ⟨by decide, by decide, by decide, by decide, by decide⟩

/-- C6 witness: the characterisation instantiated at two concrete
well-formed records. -/
theorem claim_C6_witness :
    PubmedRecord.WF recA ∧ PubmedRecord.WF recB ∧
    (PubmedRecord.sameKey recA recB ↔ ∀ k, recA.get k = recB.get k) :=
  ⟨by decide, by decide, (claim_C6_key_equality_amended recA recB).2 (by decide) (by decide)⟩

/-- C7 (amended): `year` is an explicit `None` when `'DP'` is missing and the
falsy value itself when `'DP'` is the empty string; when `'DP'` is a
non-empty string it is the integer parse of the first four characters if
that parse succeeds (in particular, when they are all digits), but a
malformed non-empty `'DP'` raises `ValueError` rather than yielding an
absent result. -/
theorem claim_C7_year_amended (r : PubmedRecord) (s : String) :
    (r.get "DP" = Option.none → r.year = Except.ok PyObj.none) ∧
    (r.get "DP" = some (FieldValue.str "") → r.year = Except.ok (PyObj.str "")) ∧
    (r.get "DP" = some (FieldValue.str s) → s.data ≠ [] →
      (∀ n : Int, pyInt (s.data.take 4) = some n → r.year = Except.ok (PyObj.int n)) ∧
      (pyInt (s.data.take 4) = Option.none → r.year = Except.error PyError.valueError) ∧
      ((s.data.take 4).all Char.isDigit = true →
        r.year = Except.ok (PyObj.int ((digitsFold (s.data.take 4) : Nat) : Int)))) := by
  refine ⟨?_, ?_, ?_⟩
  · intro h
    simp only [PubmedRecord.year, h]
  · intro h
    simp only [PubmedRecord.year, h]
    rfl
  · intro h hne
    have hemp : s.data.isEmpty = false := by
      cases hd : s.data with
      | nil => exact absurd hd hne
      | cons a l => rfl
    refine ⟨?_, ?_, ?_⟩
    · intro n hp
      simp only [PubmedRecord.year, h, hemp, Bool.false_eq_true, if_false, hp]
    · intro hp
      simp only [PubmedRecord.year, h, hemp, Bool.false_eq_true, if_false, hp]
    · intro hd
      have ht4 : s.data.take 4 ≠ [] := by
        intro he
        rw [List.take_eq_nil_iff] at he
        rcases he with he | he <;> simp_all
      have hp := pyInt_of_digits ht4 hd
      simp only [PubmedRecord.year, h, hemp, Bool.false_eq_true, if_false, hp]

/-- C7 counterexample: a malformed non-empty `'DP'` ("Epub") makes `year`
raise `ValueError` instead of producing an absent result. -/
theorem claim_C7_counterexample :
    PubmedRecord.year ⟨[("DP", FieldValue.str "Epub")]⟩ = Except.error PyError.valueError := by
  decide

/-- C7 witness: a record whose `'DP'` starts with four digits. -/
theorem claim_C7_witness :
    PubmedRecord.year ⟨[("DP", FieldValue.str "2014 Jan")]⟩ = Except.ok (PyObj.int 2014) := by
  have h := ((claim_C7_year_amended ⟨[("DP", FieldValue.str "2014 Jan")]⟩
    "2014 Jan").2.2 (by decide) (by decide)).2.2 (by decide)
  exact h.trans (by decide)

/-- C8: a slice and a `find` filter each produce a fresh collection whose
pending-exclusion set is empty and which raises nothing, regardless of the
source collection's exclusion state; their element lists are the slice and
the matching records respectively. -/
theorem claim_C8_fresh_exclude (compile : String → Regex) (rs : Records) (i j : Int)
    (p : String) :
    (rs.getslice i j).1.exclude_ = [] ∧ (rs.getslice i j).2 = Option.none ∧
    (rs.getslice i j).1.recs = pySlice rs.recs i j ∧
    (rs.find compile p).1.exclude_ = [] ∧ (rs.find compile p).2 = Option.none ∧
    (rs.find compile p).1.recs = rs.recs.filter (fun r => r.pymatch compile p) := by
  unfold Records.getslice Records.find
  rw [init_map_record, init_map_record]
  exact ⟨rfl, rfl, rfl, rfl, rfl, rfl⟩

/-- C9 (amended): for a pattern passing the substring test, `match` succeeds
exactly when the pattern occurs as a substring at a position preceded by no
newline (the wrapper `.*P.*` is anchored at position 0 and `.` does not
cross `'\n'`) — not "anywhere" in the corpus; for any other pattern the
compiled regex must match a prefix of the corpus starting at position 0. -/
theorem claim_C9_match_amended (compile : String → Regex) (r : PubmedRecord)
    (p : String) :
    (is_substring p = true →
      (r.pymatch compile p = true ↔
        ∃ i, (((r.as_corpus).data.take i).all (fun c => !(c == '\n'))) = true ∧
          p.data <+: (r.as_corpus).data.drop i)) ∧
    (is_substring p = false →
      (r.pymatch compile p = true ↔
        ∃ pre, pre <+: (r.as_corpus).data ∧ (compile p).Accepts pre)) := by
  constructor
  · intro hs
    unfold PubmedRecord.pymatch
    rw [if_pos hs]
    exact wrapLit_matches p _
  · intro hs
    unfold PubmedRecord.pymatch
    rw [if_neg (by simp [hs])]
    rw [matchesPrefix_iff]

/-- C9 counterexample: the substring-like pattern "brain" occurs in the
corpus "a\nbrain", yet `match` reports no match, because the wrapped regex
is anchored at position 0 and `.` cannot cross the newline. -/
theorem claim_C9_counterexample :
    is_substring "brain" = true ∧
    occursAnywhere "brain".data
      (PubmedRecord.as_corpus ⟨[("TI", FieldValue.str "a\nbrain")]⟩).data = true ∧
    PubmedRecord.pymatch (fun _ => Regex.fail)
      ⟨[("TI", FieldValue.str "a\nbrain")]⟩ "brain" = false := by
  refine ⟨by decide, by decide, by decide⟩

/-- C9 witness: the substring branch instantiated where the pattern occurs
before any newline. -/
theorem claim_C9_witness :
    PubmedRecord.pymatch (fun _ => Regex.fail)
      ⟨[("TI", FieldValue.str "brainx")]⟩ "brain" = true := by
  have h := (claim_C9_match_amended (fun _ => Regex.fail)
    ⟨[("TI", FieldValue.str "brainx")]⟩ "brain").1 (by decide)
  exact h.mpr ⟨0, by decide, by decide⟩

/-- C10: with a non-empty pending-exclusion set, `append` of any record
raises the same `RuntimeError` as `insert` (to which it delegates) with the
state unchanged, and `extend` of any non-empty list fails with the state
unchanged — with that same `RuntimeError` whenever growth is actually
attempted (first element a record). -/
theorem claim_C10_append_delegates (rs : Records) (r : PubmedRecord) (v : PyVal)
    (vs : List PyVal) (h : rs.exclude_ ≠ []) :
    rs.append (PyVal.record r) = (rs, some PyError.runtimeError) ∧
    rs.extend (PyVal.record r :: vs) = (rs, some PyError.runtimeError) ∧
    (rs.extend (v :: vs)).1 = rs ∧ (rs.extend (v :: vs)).2.isSome = true := by
  have happ : ∀ rc : PubmedRecord,
      rs.append (PyVal.record rc) = (rs, some PyError.runtimeError) := by
    intro rc
    show rs.insert rs.recs.length rc = _
    unfold Records.insert
    rw [if_neg (by simpa [List.isEmpty_iff] using h)]
  have hext : ∀ (rc : PubmedRecord) (tail : List PyVal),
      rs.extend (PyVal.record rc :: tail) = (rs, some PyError.runtimeError) := by
    intro rc tail
    rw [Records.extend, happ rc]
  refine ⟨happ r, hext r vs, ?_, ?_⟩
  · cases v with
    | record rc => rw [hext rc vs]
    | str s => rfl
    | intVal n => rfl
    | noneVal => rfl
  · cases v with
    | record rc => rw [hext rc vs]; rfl
    | str s => rfl
    | intVal n => rfl
    | noneVal => rfl

/-- C10 witness: concrete blocked `append` and `extend` on a collection with
a pending exclusion. -/
theorem claim_C10_witness :
    Records.append ⟨[recA], [0]⟩ (PyVal.record recB) =
      (⟨[recA], [0]⟩, some PyError.runtimeError) ∧
    Records.extend ⟨[recA], [0]⟩ [PyVal.record recB] =
      (⟨[recA], [0]⟩, some PyError.runtimeError) := by
  have h := claim_C10_append_delegates ⟨[recA], [0]⟩ recB (PyVal.str "x") [] (by decide)
  exact ⟨h.1, h.2.1⟩
